import Mathlib

set_option autoImplicit false

/-!
# Shallow embedding of the goCache package

Each Go function of the cache engine is translated into a Lean definition.
Conventions used throughout:

* `time.Now().UnixNano()` is passed explicitly as a `now : Int` argument
  (Go `int64` nanoseconds).
* `time.Duration` values are `Int` (nanoseconds).
* The Go `map[string]Item` is an association list `List (String × Item)`;
  `mapLookup`, `mapSet` and `mapDelete` give it Go-map semantics.  A real Go
  map has pairwise-distinct keys, which theorems state as
  `(items.map Prod.fst).Nodup` where they need it.
* The mutex is not modelled: every exported operation is one atomic step.
* The `onEvicted` callback field is modelled by the boolean `hasOnEvicted`
  (the `!= nil` check) together with the list of `(key, value)` invocations
  an operation performs, returned alongside the new cache state.
* Go `error` results are `Option String` carrying the `fmt.Errorf` message.
-/

namespace GoCache

/-- Go `interface{}` values stored in the cache.  The integer case (Go
`int`, modelled as a 64-bit two's-complement value) is distinguished
because `Increment` type-switches on it; `str` stands for any non-integer
payload. -/
inductive Obj where
  | int64 : Int → Obj
  | str : String → Obj
  deriving DecidableEq, Repr

/-- 64-bit two's-complement wraparound: the result of Go `int` (64-bit)
addition overflowing is `wrap64` of the mathematical sum. -/
def wrap64 (x : Int) : Int := (x + 2 ^ 63) % 2 ^ 64 - 2 ^ 63

/-- `NoExpiration time.Duration = -1` -/
def NoExpiration : Int := -1

/-- `DefaultExpiration time.Duration = 0` -/
def DefaultExpiration : Int := 0

/-- `type Item struct { Object interface{}; Expiration int64 }` -/
structure Item where
  Object : Obj
  Expiration : Int
  deriving DecidableEq, Repr

/-- `func (item Item) Expired() bool`: false when `Expiration == 0`,
otherwise `time.Now().UnixNano() > item.Expiration`. -/
def Item.Expired (item : Item) (now : Int) : Bool :=
  if item.Expiration = 0 then false
  else decide (now > item.Expiration)

/-- `type janitor struct { Interval time.Duration; stop chan bool }`
(the stop channel is concurrency plumbing and is not modelled). -/
structure janitor where
  Interval : Int
  deriving DecidableEq, Repr

/-- The Go `map[string]Item`. -/
abbrev ItemMap := List (String × Item)

/-- Go map read `m[k]`. -/
def mapLookup (k : String) : ItemMap → Option Item
  | [] => none
  | p :: rest => if p.1 = k then some p.2 else mapLookup k rest

/-- Go builtin `delete(m, k)` (a no-op when `k` is absent). -/
def mapDelete (m : ItemMap) (k : String) : ItemMap :=
  m.filter (fun p => !decide (p.1 = k))

/-- Go map assignment `m[k] = it` (insert or overwrite). -/
def mapSet (m : ItemMap) (k : String) (it : Item) : ItemMap :=
  (k, it) :: mapDelete m k

/-- `type cache struct { defaultExpiration time.Duration; items map[string]Item;
mu sync.RWMutex; onEvicted func(string, interface\x7b\x7d); janitor *janitor }` -/
structure cache where
  defaultExpiration : Int
  items : ItemMap
  hasOnEvicted : Bool
  janitor : Option janitor
  deriving DecidableEq, Repr

/-- `func (c *cache) set(k string, x interface\x7b\x7d, d time.Duration)`:
resolve the default sentinel, compute the absolute expiration (`0` when the
resolved duration is not positive), store the item. -/
def cache.set (c : cache) (k : String) (x : Obj) (d : Int) (now : Int) : cache :=
  let d := if d = DefaultExpiration then c.defaultExpiration else d
  let e : Int := if d > 0 then now + d else 0
  { c with items := mapSet c.items k ⟨x, e⟩ }

/-- `func (c *cache) Set(...)`: in the source its body is the lowercase
`set` body repeated verbatim with the lock taken around the store. -/
def cache.Set (c : cache) (k : String) (x : Obj) (d : Int) (now : Int) : cache :=
  c.set k x d now

/-- `func (c *cache) get(k string) (interface\x7b\x7d, bool)`: not found, or
found but `Expiration > 0 && Expiration < now`, yield `(nil, false)`. -/
def cache.get (c : cache) (k : String) (now : Int) : Option Obj :=
  match mapLookup k c.items with
  | none => none
  | some item =>
      if item.Expiration > 0 ∧ item.Expiration < now then none
      else some item.Object

/-- `func (c *cache) Get(k string) (interface\x7b\x7d, bool)`: NOTE the
source checks `item.Expiration < time.Now().UnixNano()` without the
`Expiration > 0` guard that `get` and `Expired` have. -/
def cache.Get (c : cache) (k : String) (now : Int) : Option Obj :=
  match mapLookup k c.items with
  | none => none
  | some item =>
      if item.Expiration < now then none
      else some item.Object

/-- `func (c *cache) Add(k, x, d) error`: error when `get` finds a live
entry, otherwise `set`. -/
def cache.Add (c : cache) (k : String) (x : Obj) (d : Int) (now : Int) :
    cache × Option String :=
  match c.get k now with
  | some _ => (c, some ("Item:" ++ k ++ " has already exit"))
  | none => (c.set k x d now, none)

/-- `func (c *cache) Replace(k, x, d) error`: error when `get` finds no
live entry, otherwise `set`. -/
def cache.Replace (c : cache) (k : String) (x : Obj) (d : Int) (now : Int) :
    cache × Option String :=
  match c.get k now with
  | none => (c, some ("Item:" ++ k ++ " dosen't exit"))
  | some _ => (c.set k x d now, none)

/-- `func (c *cache) Increment(k string, n int64) error`: raw map read,
`Expired` check, type switch on `int` (addition wraps as Go `int`
addition does), write the updated copy back with `c.items[k] = v`. -/
def cache.Increment (c : cache) (k : String) (n : Int) (now : Int) :
    cache × Option String :=
  match mapLookup k c.items with
  | none => (c, some "Item not found or expired")
  | some v =>
      if v.Expired now then (c, some "Item not found or expired")
      else
        match v.Object with
        | Obj.int64 i =>
            ({ c with items := mapSet c.items k ⟨Obj.int64 (wrap64 (i + n)), v.Expiration⟩ },
             none)
        | _ => (c, some "not support value tyepe")

/-- `func (c *cache) delete(k string) (interface\x7b\x7d, bool)`: when the
callback is set and the key present, report the removed value; in every
branch the key is deleted from the map. -/
def cache.delete (c : cache) (k : String) : cache × Option Obj :=
  if c.hasOnEvicted then
    match mapLookup k c.items with
    | some v => ({ c with items := mapDelete c.items k }, some v.Object)
    | none => ({ c with items := mapDelete c.items k }, none)
  else
    ({ c with items := mapDelete c.items k }, none)

/-- `func (c *cache) Delete(k string)`: `delete` under the lock, then call
`onEvicted(k, v)` when a value was evicted.  The second component lists
the callback invocations performed. -/
def cache.Delete (c : cache) (k : String) : cache × List (String × Obj) :=
  match c.delete k with
  | (c2, some v) => (c2, [(k, v)])
  | (c2, none) => (c2, [])

/-- The loop body of `DeleteExpired`: iterate over the entries, `delete`
each one whose `Expiration > 0 && Expiration < timeNow`, and collect the
evicted `(key, value)` pairs in iteration order. -/
def deleteExpiredGo (now : Int) : cache → ItemMap → cache × List (String × Obj)
  | c, [] => (c, [])
  | c, (k, v) :: rest =>
      if v.Expiration > 0 ∧ v.Expiration < now then
        match c.delete k with
        | (c2, some obj) =>
            let r := deleteExpiredGo now c2 rest
            (r.1, (k, obj) :: r.2)
        | (c2, none) => deleteExpiredGo now c2 rest
      else
        deleteExpiredGo now c rest

/-- `func (c *cache) DeleteExpired()`: one `timeNow` snapshot, the sweep
loop over `c.items`, then one `onEvicted` call per collected pair (the
second component, in order). -/
def cache.DeleteExpired (c : cache) (now : Int) : cache × List (String × Obj) :=
  deleteExpiredGo now c c.items

/-- `func (c *cache) ItemCount() int`. -/
def cache.ItemCount (c : cache) : Nat :=
  c.items.length

/-- `func (c *cache) Flush()`: replace the map with an empty one; the body
contains no `onEvicted` call, so the invocation list is empty. -/
def cache.Flush (c : cache) : cache × List (String × Obj) :=
  ({ c with items := [] }, [])

/-- `func runJanitor(c *cache, ci time.Duration)`: allocate a janitor with
the given interval and store it in `c.janitor` (the spawned background
loop itself is concurrency and is not modelled). -/
def runJanitor (c : cache) (ci : Int) : cache :=
  { c with janitor := some ⟨ci⟩ }

/-- `func newCache(de time.Duration, m map[string]Item) *cache`: a zero
default expiration is replaced by `-1`; `onEvicted` and `janitor` start as
Go zero values (`nil`). -/
def newCache (de : Int) (m : ItemMap) : cache :=
  let de := if de = 0 then -1 else de
  { defaultExpiration := de, items := m, hasOnEvicted := false, janitor := none }

/-- `func newCacheWithJanitor(...) *Cache`: run the janitor exactly when
`cleanupInterval > 0` (the `Cache` wrapper only embeds `*cache`, so it is
modelled as `cache` itself; `runtime.SetFinalizer` is not modelled). -/
def newCacheWithJanitor (de ci : Int) (m : ItemMap) : cache :=
  let c := newCache de m
  if ci > 0 then runJanitor c ci else c

/-- `func New(defaultExpiration, cleanupInterval time.Duration) *Cache`. -/
def New (de ci : Int) : cache :=
  newCacheWithJanitor de ci []

/-! ## Lemmas about the map model -/

theorem mapLookup_mapSet_self (m : ItemMap) (k : String) (it : Item) :
    mapLookup k (mapSet m k it) = some it := by
  simp [mapSet, mapLookup]

theorem mapLookup_mapDelete_self (m : ItemMap) (k : String) :
    mapLookup k (mapDelete m k) = none := by
  induction m with
  | nil => rfl
  | cons p rest ih =>
      by_cases hpk : p.1 = k
      · simpa [mapDelete, hpk] using ih
      · simpa [mapDelete, mapLookup, hpk] using ih

theorem mapLookup_mapDelete_ne (m : ItemMap) (k a : String) (h : a ≠ k) :
    mapLookup a (mapDelete m k) = mapLookup a m := by
  induction m with
  | nil => rfl
  | cons p rest ih =>
      by_cases hpk : p.1 = k
      · have hpa : p.1 ≠ a := fun he => h (he.symm.trans hpk)
        have h1 : mapDelete (p :: rest) k = mapDelete rest k := by
          simp [mapDelete, List.filter_cons, hpk]
        have h2 : mapLookup a (p :: rest) = mapLookup a rest := by
          simp [mapLookup, hpa]
        rw [h1, h2]
        exact ih
      · have h1 : mapDelete (p :: rest) k = p :: mapDelete rest k := by
          simp [mapDelete, List.filter_cons, hpk]
        rw [h1]
        by_cases hpa : p.1 = a
        · simp [mapLookup, hpa]
        · simp [mapLookup, hpa]
          exact ih

theorem mapDelete_of_lookup_none (m : ItemMap) (k : String)
    (h : mapLookup k m = none) : mapDelete m k = m := by
  induction m with
  | nil => rfl
  | cons p rest ih =>
      by_cases hpk : p.1 = k
      · simp [mapLookup, hpk] at h
      · simp [mapLookup, hpk] at h
        simp [mapDelete, hpk] at ih ⊢
        exact ih h

theorem mapLookup_of_mem_nodup (m : ItemMap) (p : String × Item)
    (hN : (m.map Prod.fst).Nodup) (hp : p ∈ m) :
    mapLookup p.1 m = some p.2 := by
  induction m with
  | nil => cases hp
  | cons q rest ih =>
      simp only [List.map_cons, List.nodup_cons] at hN
      rcases List.mem_cons.mp hp with hq | hrest
      · subst hq
        simp [mapLookup]
      · have hne : q.1 ≠ p.1 := by
          intro he
          exact hN.1 (he ▸ List.mem_map_of_mem Prod.fst hrest)
        simp [mapLookup, hne]
        exact ih hN.2 hrest

theorem nodupKeys_mapDelete (m : ItemMap) (k : String)
    (h : (m.map Prod.fst).Nodup) : ((mapDelete m k).map Prod.fst).Nodup := by
  have hs : (mapDelete m k).Sublist m := List.filter_sublist m
  exact (hs.map Prod.fst).nodup h

/-- The sweep loop, characterized against the initial state: starting from
a cache whose keys are pairwise distinct and a pending list `l` of entries
all present in the cache, the loop keeps exactly the entries that are not
(expired and listed in `l`), and evicts the expired listed entries (in
order) exactly when the callback is set. -/
theorem deleteExpiredGo_spec (now : Int) (l : ItemMap) :
    ∀ c : cache,
      (c.items.map Prod.fst).Nodup →
      (l.map Prod.fst).Nodup →
      (∀ p ∈ l, mapLookup p.1 c.items = some p.2) →
      (deleteExpiredGo now c l).1
        = { c with items := (c.items.filter
            (fun p => !(decide (p.2.Expiration > 0 ∧ p.2.Expiration < now)
                        && decide (p.1 ∈ l.map Prod.fst)))) }
      ∧ (deleteExpiredGo now c l).2
        = (if c.hasOnEvicted then
            (l.filter
                (fun p => decide (p.2.Expiration > 0 ∧ p.2.Expiration < now))).map
              (fun p => (p.1, p.2.Object))
          else []) := by
  induction l with
  | nil =>
      intro c hNc hNl hsub
      constructor
      · simp [deleteExpiredGo]
      · simp [deleteExpiredGo]
  | cons hd rest ih =>
      obtain ⟨k, v⟩ := hd
      intro c hNc hNl hsub
      have hk : mapLookup k c.items = some v := hsub (k, v) (List.mem_cons_self _ _)
      have hknotin : k ∉ rest.map Prod.fst := by
        simp only [List.map_cons, List.nodup_cons] at hNl
        exact hNl.1
      have hNrest : (rest.map Prod.fst).Nodup := by
        simp only [List.map_cons, List.nodup_cons] at hNl
        exact hNl.2
      have hsubrest : ∀ p ∈ rest, mapLookup p.1 c.items = some p.2 :=
        fun p hp => hsub p (List.mem_cons_of_mem _ hp)
      have hmemv : ∀ p ∈ c.items, p.1 = k → p.2 = v := by
        intro p hp hpk
        have hlp := mapLookup_of_mem_nodup c.items p hNc hp
        rw [hpk, hk] at hlp
        exact (Option.some.injEq _ _).mp hlp.symm
      by_cases hexp : v.Expiration > 0 ∧ v.Expiration < now
      · -- the head entry is expired and gets deleted
        have hNc2 : ((mapDelete c.items k).map Prod.fst).Nodup :=
          nodupKeys_mapDelete c.items k hNc
        have hsub2 : ∀ p ∈ rest,
            mapLookup p.1 (mapDelete c.items k) = some p.2 := by
          intro p hp
          have hpk : p.1 ≠ k :=
            fun he => hknotin (he ▸ List.mem_map_of_mem Prod.fst hp)
          rw [mapLookup_mapDelete_ne _ _ _ hpk]
          exact hsubrest p hp
        have hfilter :
            (mapDelete c.items k).filter
              (fun p => !(decide (p.2.Expiration > 0 ∧ p.2.Expiration < now)
                          && decide (p.1 ∈ rest.map Prod.fst)))
            = c.items.filter
              (fun p => !(decide (p.2.Expiration > 0 ∧ p.2.Expiration < now)
                          && decide (p.1 ∈ ((k, v) :: rest).map Prod.fst))) := by
          rw [mapDelete, List.filter_filter]
          apply List.filter_congr
          intro p hp
          by_cases hpk : p.1 = k
          · have hpv : p.2 = v := hmemv p hp hpk
            simp [hpk, hpv, hexp, hknotin]
          · have hbeq : (p.1 == k) = false := by simp [hpk]
            simp [hpk, hbeq, List.mem_cons]
        cases hcb : c.hasOnEvicted with
        | false =>
            have hdel : c.delete k
                = ({ c with items := mapDelete c.items k }, none) := by
              simp [cache.delete, hcb]
            have hstep : deleteExpiredGo now c ((k, v) :: rest)
                = deleteExpiredGo now { c with items := mapDelete c.items k }
                    rest := by
              simp only [deleteExpiredGo, if_pos hexp, hdel]
            obtain ⟨ih1, ih2⟩ :=
              ih { c with items := mapDelete c.items k } hNc2 hNrest hsub2
            constructor
            · rw [hstep, ih1]
              dsimp only
              rw [hfilter, hcb]
            · rw [hstep, ih2]
              dsimp only
              simp [hcb]
        | true =>
            have hdel : c.delete k
                = ({ c with items := mapDelete c.items k }, some v.Object) := by
              simp [cache.delete, hcb, hk]
            have hstep : deleteExpiredGo now c ((k, v) :: rest)
                = ((deleteExpiredGo now
                      { c with items := mapDelete c.items k } rest).1,
                   (k, v.Object)
                     :: (deleteExpiredGo now
                          { c with items := mapDelete c.items k } rest).2) := by
              simp only [deleteExpiredGo, if_pos hexp, hdel]
            obtain ⟨ih1, ih2⟩ :=
              ih { c with items := mapDelete c.items k } hNc2 hNrest hsub2
            constructor
            · rw [hstep]
              dsimp only
              rw [ih1]
              dsimp only
              rw [hfilter, hcb]
            · rw [hstep]
              dsimp only
              rw [ih2]
              dsimp only
              simp [hcb, List.filter_cons, hexp]
      · -- the head entry is live and left alone
        have hstep : deleteExpiredGo now c ((k, v) :: rest)
            = deleteExpiredGo now c rest := by
          simp only [deleteExpiredGo, if_neg hexp]
        obtain ⟨ih1, ih2⟩ := ih c hNc hNrest hsubrest
        constructor
        · rw [hstep, ih1]
          congr 1
          apply List.filter_congr
          intro p hp
          by_cases hpk : p.1 = k
          · have hpv : p.2 = v := hmemv p hp hpk
            simp [hpk, hpv, hexp]
          · have hbeq : (p.1 == k) = false := by simp [hpk]
            simp [hpk, hbeq, List.mem_cons]
        · rw [hstep, ih2]
          simp [List.filter_cons, hexp]

/-! ## Claim theorems -/

/-- C1: the claim says an entry stored with `NoExpiration` is returned by
`Get` at every later time.  The code stores it with `Expiration = 0`, but
`Get` checks `item.Expiration < now` without the `Expiration > 0` guard
that `get` and `Expired` have, so `Get` reports the entry missing at any
positive time while the internal `get` still reports it live. -/
theorem Get_misses_noExpiration_entry :
    mapLookup "a" (((New 0 0).Set "a" (Obj.str "v") NoExpiration 100).items)
      = some ⟨Obj.str "v", 0⟩
    ∧ ((New 0 0).Set "a" (Obj.str "v") NoExpiration 100).Get "a" 200 = none
    ∧ ((New 0 0).Set "a" (Obj.str "v") NoExpiration 100).get "a" 200
      = some (Obj.str "v") := by
  decide

/-- C2: `Set` resolves `ttl = DefaultExpiration` to the cache's default,
a negative `ttl` yields a never-expiring entry (`Expiration = 0`), a
positive `ttl` yields `Expiration = now + ttl`, and on a cache built with
a zero default expiration the default sentinel stores a never-expiring
entry. -/
theorem Set_resolves_ttl (c : cache) (k : String) (x : Obj) (d now : Int) :
    (d = DefaultExpiration →
      mapLookup k ((c.Set k x d now).items)
        = some ⟨x, if c.defaultExpiration > 0 then now + c.defaultExpiration else 0⟩)
    ∧ (d < 0 → mapLookup k ((c.Set k x d now).items) = some ⟨x, 0⟩)
    ∧ (0 < d → mapLookup k ((c.Set k x d now).items) = some ⟨x, now + d⟩)
    ∧ (∀ m, mapLookup k (((newCache 0 m).Set k x DefaultExpiration now).items)
        = some ⟨x, 0⟩) := by
  refine ⟨?_, ?_, ?_, ?_⟩
  · intro hd
    subst hd
    simp [cache.Set, cache.set, DefaultExpiration, mapLookup_mapSet_self]
  · intro hd
    have h0 : d ≠ DefaultExpiration := by simp [DefaultExpiration]; omega
    have h1 : ¬ d > 0 := by omega
    simp [cache.Set, cache.set, h0, h1, mapLookup_mapSet_self]
  · intro hd
    have h0 : d ≠ DefaultExpiration := by simp [DefaultExpiration]; omega
    simp [cache.Set, cache.set, h0, hd, mapLookup_mapSet_self]
  · intro m
    simp [cache.Set, cache.set, newCache, DefaultExpiration, mapLookup_mapSet_self]

/-- Witness for C2 at concrete inputs: a negative ttl and a positive ttl. -/
theorem Set_resolves_ttl_witness :
    mapLookup "k" (((New 5 0).Set "k" (Obj.str "v") (-1) 7).items)
      = some ⟨Obj.str "v", 0⟩
    ∧ mapLookup "k" (((New 5 0).Set "k" (Obj.str "v") 3 7).items)
      = some ⟨Obj.str "v", 10⟩ :=
  ⟨(Set_resolves_ttl (New 5 0) "k" (Obj.str "v") (-1) 7).2.1 (by norm_num),
   (Set_resolves_ttl (New 5 0) "k" (Obj.str "v") 3 7).2.2.1 (by norm_num)⟩

/-- C3: `Add` fails (with the key-exists error) exactly when the key holds
a live entry — one whose expiration is not both positive and past `now`,
so a zero (never-expiring) expiration counts as live — and otherwise
performs the `set` insertion and returns no error. -/
theorem Add_keyExists_iff (c : cache) (k : String) (x : Obj) (d now : Int) :
    ((∃ it, mapLookup k c.items = some it
        ∧ ¬(it.Expiration > 0 ∧ it.Expiration < now)) →
      c.Add k x d now = (c, some ("Item:" ++ k ++ " has already exit")))
    ∧ (mapLookup k c.items = none →
      c.Add k x d now = (c.set k x d now, none))
    ∧ (∀ it, mapLookup k c.items = some it → it.Expiration > 0 →
        it.Expiration < now →
      c.Add k x d now = (c.set k x d now, none)) := by
  refine ⟨?_, ?_, ?_⟩
  · rintro ⟨it, hit, hlive⟩
    simp [cache.Add, cache.get, hit, hlive]
  · intro h
    simp [cache.Add, cache.get, h]
  · intro it hit h1 h2
    simp [cache.Add, cache.get, hit, h1, h2]

/-- Witness for C3: adding over a live never-expiring entry fails; adding
to an empty cache succeeds. -/
theorem Add_keyExists_iff_witness :
    ((New 0 0).Set "a" (Obj.str "w") (-1) 5).Add "a" (Obj.str "v") (-1) 9
      = ((New 0 0).Set "a" (Obj.str "w") (-1) 5,
         some ("Item:" ++ "a" ++ " has already exit"))
    ∧ (New 0 0).Add "b" (Obj.str "v") (-1) 9
      = ((New 0 0).set "b" (Obj.str "v") (-1) 9, none) :=
  ⟨(Add_keyExists_iff ((New 0 0).Set "a" (Obj.str "w") (-1) 5) "a"
      (Obj.str "v") (-1) 9).1 ⟨⟨Obj.str "w", 0⟩, by decide, by decide⟩,
   (Add_keyExists_iff (New 0 0) "b" (Obj.str "v") (-1) 9).2.1 (by decide)⟩

/-- C4: `Replace` fails (with the not-found error) exactly when the key is
absent or its entry has expired; on a live entry it performs the `set`
(overwriting the value and recomputing the expiration from the ttl) and
returns no error. -/
theorem Replace_keyNotFound_iff (c : cache) (k : String) (x : Obj) (d now : Int) :
    (mapLookup k c.items = none →
      c.Replace k x d now = (c, some ("Item:" ++ k ++ " dosen't exit")))
    ∧ (∀ it, mapLookup k c.items = some it → it.Expiration > 0 →
        it.Expiration < now →
      c.Replace k x d now = (c, some ("Item:" ++ k ++ " dosen't exit")))
    ∧ (∀ it, mapLookup k c.items = some it →
        ¬(it.Expiration > 0 ∧ it.Expiration < now) →
      c.Replace k x d now = (c.set k x d now, none)) := by
  refine ⟨?_, ?_, ?_⟩
  · intro h
    simp [cache.Replace, cache.get, h]
  · intro it hit h1 h2
    simp [cache.Replace, cache.get, hit, h1, h2]
  · intro it hit hlive
    simp [cache.Replace, cache.get, hit, hlive]

/-- Witness for C4: replacing an absent key fails; replacing a live entry
succeeds. -/
theorem Replace_keyNotFound_iff_witness :
    (New 0 0).Replace "a" (Obj.str "v") (-1) 9
      = (New 0 0, some ("Item:" ++ "a" ++ " dosen't exit"))
    ∧ ((New 0 0).Set "a" (Obj.str "w") (-1) 5).Replace "a" (Obj.str "v") (-1) 9
      = (((New 0 0).Set "a" (Obj.str "w") (-1) 5).set "a" (Obj.str "v") (-1) 9,
         none) :=
  ⟨(Replace_keyNotFound_iff (New 0 0) "a" (Obj.str "v") (-1) 9).1 (by decide),
   (Replace_keyNotFound_iff ((New 0 0).Set "a" (Obj.str "w") (-1) 5) "a"
      (Obj.str "v") (-1) 9).2.2 ⟨Obj.str "w", 0⟩ (by decide) (by decide)⟩

/-- C5 counterexample: the claim says `Increment` replaces the stored
integer by `value + n` exactly, but Go `int` addition wraps: incrementing
the stored value `2^63 - 1` by `1` stores `-2^63`, not `2^63 - 1 + 1`. -/
theorem Increment_overflow_cex :
    mapLookup "a"
        ((((New 0 0).Set "a" (Obj.int64 (2 ^ 63 - 1)) NoExpiration 5).Increment
            "a" 1 9).1.items)
      = some ⟨Obj.int64 (-(2 ^ 63)), 0⟩
    ∧ ((-(2 ^ 63) : Int) ≠ (2 ^ 63 - 1) + 1) := by
  decide

/-- C5 (amended): `Increment` fails with the not-found error when the key
is absent or expired, fails with the unsupported-type error and leaves the
cache unchanged when the live value is not an integer, and on a live
integer value stores `value + n` computed with 64-bit two's-complement
wraparound — equal to `value + n` whenever that sum is in the `int64`
range — leaving the expiration unchanged. -/
theorem Increment_cases (c : cache) (k : String) (n now : Int) :
    (mapLookup k c.items = none →
      c.Increment k n now = (c, some "Item not found or expired"))
    ∧ (∀ v, mapLookup k c.items = some v → v.Expired now = true →
      c.Increment k n now = (c, some "Item not found or expired"))
    ∧ (∀ v, mapLookup k c.items = some v → v.Expired now = false →
        (∀ i, v.Object ≠ Obj.int64 i) →
      c.Increment k n now = (c, some "not support value tyepe"))
    ∧ (∀ v i, mapLookup k c.items = some v → v.Expired now = false →
        v.Object = Obj.int64 i →
      (c.Increment k n now).2 = none
      ∧ mapLookup k ((c.Increment k n now).1.items)
          = some ⟨Obj.int64 (wrap64 (i + n)), v.Expiration⟩
      ∧ (-(2 ^ 63) ≤ i + n → i + n < 2 ^ 63 → wrap64 (i + n) = i + n)) := by
  refine ⟨?_, ?_, ?_, ?_⟩
  · intro h
    simp [cache.Increment, h]
  · intro v hv hexp
    simp [cache.Increment, hv, hexp]
  · intro v hv hexp hne
    cases hobj : v.Object with
    | int64 i => exact absurd hobj (hne i)
    | str s => simp [cache.Increment, hv, hexp, hobj]
  · intro v i hv hexp hobj
    refine ⟨?_, ?_, ?_⟩
    · simp [cache.Increment, hv, hexp, hobj]
    · simp [cache.Increment, hv, hexp, hobj, mapLookup_mapSet_self]
    · intro h1 h2
      have e1 : (2 : Int) ^ 63 = 9223372036854775808 := by norm_num
      have e2 : (2 : Int) ^ 64 = 18446744073709551616 := by norm_num
      unfold wrap64
      rw [e1] at h1 h2
      rw [e1, e2]
      omega

/-- Witness for C5 on a live integer entry without overflow. -/
theorem Increment_cases_witness :
    ((((New 0 0).Set "a" (Obj.int64 5) (-1) 3).Increment "a" 2 9).2 = none
    ∧ mapLookup "a"
        (((((New 0 0).Set "a" (Obj.int64 5) (-1) 3).Increment "a" 2 9).1).items)
        = some ⟨Obj.int64 (wrap64 (5 + 2)), 0⟩
    ∧ wrap64 ((5 : Int) + 2) = 5 + 2) :=
  have h := (Increment_cases ((New 0 0).Set "a" (Obj.int64 5) (-1) 3) "a" 2
      9).2.2.2 ⟨Obj.int64 5, 0⟩ 5 (by decide) (by decide) (by decide)
  ⟨h.1, h.2.1, h.2.2 (by decide) (by decide)⟩

/-- C6: with an eviction callback configured, `Delete` on a present key
removes the entry and performs exactly one callback invocation, with the
key and the stored value; on an absent key it performs none and leaves
the cache unchanged. -/
theorem Delete_with_callback (c : cache) (k : String)
    (h : c.hasOnEvicted = true) :
    (∀ it, mapLookup k c.items = some it →
      c.Delete k = ({ c with items := mapDelete c.items k }, [(k, it.Object)])
      ∧ mapLookup k ((c.Delete k).1.items) = none)
    ∧ (mapLookup k c.items = none → c.Delete k = (c, [])) := by
  obtain ⟨de, its, cb, j⟩ := c
  dsimp only at h
  subst h
  constructor
  · intro it hit
    constructor
    · simp [cache.Delete, cache.delete, hit]
    · simp [cache.Delete, cache.delete, hit, mapLookup_mapDelete_self]
  · intro hnone
    simp [cache.Delete, cache.delete, hnone,
      mapDelete_of_lookup_none _ _ hnone]

/-- Witness for C6 on a one-entry cache with the callback set. -/
theorem Delete_with_callback_witness :
    ((⟨-1, [("a", ⟨Obj.str "v", 0⟩)], true, none⟩ : cache).Delete "a"
      = ({ (⟨-1, [("a", ⟨Obj.str "v", 0⟩)], true, none⟩ : cache) with
            items := mapDelete [("a", ⟨Obj.str "v", 0⟩)] "a" },
         [("a", Obj.str "v")])
    ∧ mapLookup "a"
        ((((⟨-1, [("a", ⟨Obj.str "v", 0⟩)], true, none⟩ : cache).Delete
            "a").1).items) = none)
    ∧ (⟨-1, [("a", ⟨Obj.str "v", 0⟩)], true, none⟩ : cache).Delete "b"
      = (⟨-1, [("a", ⟨Obj.str "v", 0⟩)], true, none⟩, []) :=
  ⟨(Delete_with_callback ⟨-1, [("a", ⟨Obj.str "v", 0⟩)], true, none⟩ "a"
      rfl).1 ⟨Obj.str "v", 0⟩ (by decide),
   (Delete_with_callback ⟨-1, [("a", ⟨Obj.str "v", 0⟩)], true, none⟩ "b"
      rfl).2 (by decide)⟩

/-- C7: `DeleteExpired` works against one `now` snapshot: it removes
exactly the entries whose positive expiration has passed that snapshot
(leaving all live entries, never-expiring ones included, intact), performs
one callback invocation per removed key exactly when the callback is set
(the invocation list is produced after the bulk removal), and when no
entry is expired it leaves the item count unchanged and performs no
invocation. -/
theorem DeleteExpired_sweep (c : cache) (now : Int)
    (hN : (c.items.map Prod.fst).Nodup) :
    (c.DeleteExpired now).1
      = { c with items := (c.items.filter
          (fun p => !decide (p.2.Expiration > 0 ∧ p.2.Expiration < now))) }
    ∧ (c.DeleteExpired now).2
      = (if c.hasOnEvicted then
          (c.items.filter
              (fun p => decide (p.2.Expiration > 0 ∧ p.2.Expiration < now))).map
            (fun p => (p.1, p.2.Object))
        else [])
    ∧ ((∀ p ∈ c.items, ¬(p.2.Expiration > 0 ∧ p.2.Expiration < now)) →
        (c.DeleteExpired now).1.ItemCount = c.ItemCount
        ∧ (c.DeleteExpired now).2 = []) := by
  have hsub : ∀ p ∈ c.items, mapLookup p.1 c.items = some p.2 :=
    fun p hp => mapLookup_of_mem_nodup c.items p hN hp
  obtain ⟨h1, h2⟩ := deleteExpiredGo_spec now c.items c hN hN hsub
  have hfeq : (c.items.filter
      (fun p => !(decide (p.2.Expiration > 0 ∧ p.2.Expiration < now)
                  && decide (p.1 ∈ c.items.map Prod.fst))))
      = c.items.filter
          (fun p => !decide (p.2.Expiration > 0 ∧ p.2.Expiration < now)) := by
    apply List.filter_congr
    intro p hp
    have hmem : p.1 ∈ c.items.map Prod.fst := List.mem_map_of_mem Prod.fst hp
    simp [hmem]
  refine ⟨?_, ?_, ?_⟩
  · rw [cache.DeleteExpired, h1, hfeq]
  · rw [cache.DeleteExpired, h2]
  · intro hnone
    have hall : c.items.filter
        (fun p => !decide (p.2.Expiration > 0 ∧ p.2.Expiration < now))
        = c.items := by
      have hpt : ∀ p ∈ c.items,
          (!decide (p.2.Expiration > 0 ∧ p.2.Expiration < now))
            = (fun _ => true) p := by
        intro p hp
        simp [hnone p hp]
      rw [List.filter_congr hpt, List.filter_true]
    have hnil : c.items.filter
        (fun p => decide (p.2.Expiration > 0 ∧ p.2.Expiration < now)) = [] := by
      rw [List.filter_eq_nil_iff]
      intro p hp
      simp [hnone p hp]
    constructor
    · simp only [cache.ItemCount, cache.DeleteExpired, h1]
      rw [hfeq, hall]
    · rw [cache.DeleteExpired, h2, hnil]
      simp

/-- Witness for C7 on a two-entry cache with the callback set, where one
entry is expired at the snapshot and one never expires. -/
theorem DeleteExpired_sweep_witness :
    ((⟨-1, [("a", ⟨Obj.str "x", 5⟩), ("b", ⟨Obj.str "y", 0⟩)], true, none⟩ :
        cache).DeleteExpired 10).1
      = ⟨-1, [("b", ⟨Obj.str "y", 0⟩)], true, none⟩
    ∧ ((⟨-1, [("a", ⟨Obj.str "x", 5⟩), ("b", ⟨Obj.str "y", 0⟩)], true, none⟩ :
        cache).DeleteExpired 10).2
      = [("a", Obj.str "x")] :=
  have h := DeleteExpired_sweep
    ⟨-1, [("a", ⟨Obj.str "x", 5⟩), ("b", ⟨Obj.str "y", 0⟩)], true, none⟩ 10
    (by decide)
  ⟨by rw [h.1]; decide, by rw [h.2.1]; decide⟩

/-- C8: `Flush` empties the cache — the item count becomes `0` and every
lookup misses — and performs no eviction-callback invocation. -/
theorem Flush_clears_without_callbacks (c : cache) :
    (c.Flush).1.ItemCount = 0
    ∧ (∀ k, mapLookup k ((c.Flush).1.items) = none)
    ∧ (c.Flush).2 = [] :=
  ⟨rfl, fun _ => rfl, rfl⟩

/-- C9: `New` installs a janitor with exactly the requested interval when
`cleanupInterval > 0`, and leaves the janitor unset when the interval is
zero or negative (so no background sweep process exists; the spawned
loop itself is concurrency and is modelled only by this field). -/
theorem New_janitor_iff (de ci : Int) :
    ((New de ci).janitor.isSome ↔ 0 < ci)
    ∧ (0 < ci → (New de ci).janitor = some ⟨ci⟩)
    ∧ (ci ≤ 0 → (New de ci).janitor = none) := by
  by_cases h : 0 < ci
  · refine ⟨?_, ?_, ?_⟩
    · simp [New, newCacheWithJanitor, newCache, runJanitor, h]
    · intro _
      simp [New, newCacheWithJanitor, newCache, runJanitor, h]
    · intro h2
      omega
  · refine ⟨?_, ?_, ?_⟩
    · simp [New, newCacheWithJanitor, newCache, h]
    · intro h2
      exact absurd h2 h
    · intro _
      simp [New, newCacheWithJanitor, newCache, h]

/-- Witness for C9: a positive interval installs the janitor, a zero
interval does not. -/
theorem New_janitor_iff_witness :
    (New 0 5).janitor = some ⟨5⟩ ∧ (New 0 0).janitor = none :=
  ⟨(New_janitor_iff 0 5).2.1 (by norm_num),
   (New_janitor_iff 0 0).2.2 (by norm_num)⟩

/-- C10: with no eviction callback configured, `Delete` still removes the
entry and performs zero callback invocations: `delete` takes the
`onEvicted == nil` branch, which never reports an evicted value. -/
theorem Delete_nil_callback (c : cache) (k : String)
    (h : c.hasOnEvicted = false) :
    (c.Delete k).2 = []
    ∧ mapLookup k ((c.Delete k).1.items) = none
    ∧ (c.Delete k).1 = { c with items := mapDelete c.items k } := by
  simp [cache.Delete, cache.delete, h, mapLookup_mapDelete_self]

/-- Witness for C10 on a one-entry cache without callback. -/
theorem Delete_nil_callback_witness :
    ((((New 0 0).Set "a" (Obj.str "v") (-1) 5).Delete "a").2 = []
    ∧ mapLookup "a" (((((New 0 0).Set "a" (Obj.str "v") (-1) 5).Delete "a").1).items)
        = none
    ∧ ((((New 0 0).Set "a" (Obj.str "v") (-1) 5).Delete "a").1)
        = { (New 0 0).Set "a" (Obj.str "v") (-1) 5 with
            items := mapDelete ((New 0 0).Set "a" (Obj.str "v") (-1) 5).items "a" }) :=
  Delete_nil_callback ((New 0 0).Set "a" (Obj.str "v") (-1) 5) "a" (by decide)

end GoCache
